import Mathlib

/-!
Verification development for `stack-overflow.py`, an Apache Beam pipeline that
extracts outbound hyperlinks from StackOverflow answer bodies, probes each
distinct URL once with an HTTP HEAD request, and writes two ranked JSON
reports (all results, failures only).

The pipeline stages are embedded as pure Lean functions over lists:
  * `ExtractURLsFromAnswer.process` — the per-record URL extractor, including
    the `re.finditer(r'<a href="(https?[^"]+)', body)` scan (`findLinks`),
    the per-record seen-set dedup, and the `urlparse(url).netloc`
    self-referential-domain skip (`urlparseNetloc`, modelling Python's
    `urllib.parse.urlparse` netloc computation for the 3.9/3.10 line used
    in 2022, including the unsafe-byte stripping and the bracket-mismatch
    `ValueError`).
  * `combinePerKey` — Beam's `CombinePerKey(combine_pcollection_to_list)`,
    i.e. group-by-URL; order of groups is engine-incidental, modelled by
    order of last first-class appearance via `List.dedup`.
  * `CheckURLReturns200.process` — the checker; the network is abstracted as
    a function `probe : String → ProbeOutcome` (either a response carrying a
    status code, reason phrase and elapsed time, or a raised exception
    carrying its type name and message).  `requests.Response.raise_for_status`
    raises exactly for status codes in [400, 600).
  * `json_encode` — `to_dict` serialization followed by the stable sort on
    `answer_score_sum` descending (`reverse=True`).
  * `pipelineResponses` / `allResponsesDoc` / `failuresDoc` — the wiring in
    `run`: extract, group, check, then branch into the all-results view and
    the `is_failure`-filtered failures view, each JSON-encoded.

Elapsed wall-clock seconds (`resp.elapsed.total_seconds()`) is abstracted as
a `Nat` measurement supplied by the probe outcome; only its presence or
absence is ever observed by the properties below.
-/

/-- Input row produced by the BigQuery query in `run`: question title, answer
body (HTML text), answer score, answer id. -/
structure SourceRecord where
  question_title : String
  body : String
  score : Int
  answer_id : Int
deriving Repr, DecidableEq

/-- Mirrors the dataclass `AnswerWithURL`; its `to_dict` is the identity on
these four fields. -/
structure AnswerWithURL where
  score : Int
  answer_id : Int
  question_title : String
  answer_url : String
deriving Repr, DecidableEq

/-- Mirrors the dataclass `AnswerURLCheckResult`. -/
structure AnswerURLCheckResult where
  url : String
  answerURLs : List AnswerWithURL
  status : Option Nat
  err_type : Option String
  err_details : Option String
  req_time_secs : Option Nat
deriving Repr, DecidableEq

/-- The dictionary produced by `AnswerURLCheckResult.to_dict`, one JSON object
of the output document. -/
structure ResultDict where
  answer_score_sum : Int
  answer_count : Nat
  url : String
  answers : List AnswerWithURL
  status : Option Nat
  err_type : Option String
  err_details : Option String
  req_time_secs : Option Nat
deriving Repr, DecidableEq

/-- Mirrors `AnswerURLCheckResult.to_dict`. -/
def AnswerURLCheckResult.to_dict (r : AnswerURLCheckResult) : ResultDict :=
  { answer_score_sum := (r.answerURLs.map (fun a => a.score)).sum
    answer_count := r.answerURLs.length
    url := r.url
    answers := r.answerURLs
    status := r.status
    err_type := r.err_type
    err_details := r.err_details
    req_time_secs := r.req_time_secs }

/-- If `p` is a prefix of `s`, return the remainder, else `none`. -/
def dropPref : List Char → List Char → Option (List Char)
  | [], s => some s
  | _ :: _, [] => none
  | p :: ps, c :: cs => if p = c then dropPref ps cs else none

/-- The literal `<a href="` the regex requires before the capture group. -/
def anchorChars : List Char := ['<', 'a', ' ', 'h', 'r', 'e', 'f', '=', '"']

/-- The literal `http` that `https?` must begin with. -/
def httpChars : List Char := ['h', 't', 't', 'p']

/-- Models `re.finditer(r'<a href="(https?[^"]+)', body)`: scan left to right;
at each position try to match the literal `<a href="`, then `http`, then a
non-empty greedy run of non-quote characters (which absorbs the optional `s`
of `https?`); on a match emit the capture `"http" ++ run` and resume after the
match, otherwise advance one character.  The `fuel` argument only bounds the
recursion so that the definition is structural (hence kernel-computable); the
scan consumes at least one character per step, so any `fuel ≥ s.length` gives
the scan's true result. -/
def findLinksAux : Nat → List Char → List String
  | 0, _ => []
  | _, [] => []
  | fuel + 1, c :: cs =>
    match dropPref anchorChars (c :: cs) with
    | some rest =>
      match dropPref httpChars rest with
      | some tail =>
        let run := tail.takeWhile (fun ch => ch ≠ '"')
        if run = [] then findLinksAux fuel cs
        else String.mk (httpChars ++ run) :: findLinksAux fuel (tail.drop run.length)
      | none => findLinksAux fuel cs
    | none => findLinksAux fuel cs

/-- All captures of `re.finditer(r'<a href="(https?[^"]+)', ·)` in order. -/
def findLinks (s : List Char) : List String := findLinksAux s.length s

/-- Characters Python's `urllib.parse` strips from a URL before parsing
(`_UNSAFE_URL_BYTES_TO_REMOVE`). -/
def urlByteToRemove (c : Char) : Bool := c = '\t' || c = '\r' || c = '\n'

/-- Python `urllib.parse.scheme_chars`: ASCII letters, digits, `+`, `-`, `.`. -/
def scheme_chars (c : Char) : Bool := c.isAlpha || c.isDigit || c = '+' || c = '-' || c = '.'

/-- Split a character list at the first colon, returning the parts before and
after it (Python `url.find(':')`). -/
def findColon : List Char → Option (List Char × List Char)
  | [] => none
  | c :: cs =>
    if c = ':' then some ([], cs)
    else
      match findColon cs with
      | none => none
      | some (pre, post) => some (c :: pre, post)

/-- Models the scheme-stripping step of `urlsplit`: when the URL has a colon
at a positive index, the first character is an ASCII letter and everything
before the colon is a scheme character, drop the scheme and the colon. -/
def stripScheme (s : List Char) : List Char :=
  match findColon s with
  | none => s
  | some ([], _) => s
  | some (c0 :: pre, post) =>
    if c0.isAlpha && (c0 :: pre).all scheme_chars then post else s

/-- Models `_splitnetloc`: the netloc extends to the first `/`, `?` or `#`. -/
def splitnetloc (s : List Char) : List Char :=
  s.takeWhile (fun c => c ≠ '/' && c ≠ '?' && c ≠ '#')

/-- Models `urlparse(url).netloc` as called by the extractor: strip unsafe
bytes, strip a well-formed scheme, and if the remainder starts with `//` take
the netloc up to the next delimiter, raising `ValueError` (modelled as `none`)
when exactly one of `[`, `]` occurs in it; otherwise the netloc is empty. -/
def urlparseNetloc (url : String) : Option String :=
  let s := url.data.filter (fun c => !urlByteToRemove c)
  match stripScheme s with
  | '/' :: '/' :: r =>
    let nl := splitnetloc r
    if (nl.contains '[') != (nl.contains ']') then none
    else some (String.mk nl)
  | _ => some ""

/-- Python `str.endswith`: the second string is a suffix of the first. -/
def endswith (s suffix : String) : Bool :=
  suffix.data.length ≤ s.data.length
    && s.data.drop (s.data.length - suffix.data.length) = suffix.data

/-- The `AnswerWithURL` built once per surviving URL of a record; note every
URL of the same record receives the same provenance value, with `answer_url`
being the permalink `https://stackoverflow.com/a/{answer_id}`. -/
def answerOf (element : SourceRecord) : AnswerWithURL :=
  { score := element.score
    answer_id := element.answer_id
    question_title := element.question_title
    answer_url := "https://stackoverflow.com/a/" ++ toString element.answer_id }

/-- The body of the extractor's `for match in re.finditer(...)` loop: walk the
captured URLs in order keeping a seen-set; skip a URL already seen in this
record; add it to the seen-set; then if `urlparse` succeeds and the netloc
ends with `stackoverflow.com` skip it, otherwise (including when `urlparse`
raises) emit `(url, answerOf element)`. -/
def emitLoop (element : SourceRecord) : List String → List String → List (String × AnswerWithURL)
  | _, [] => []
  | seen, url :: rest =>
    if url ∈ seen then emitLoop element seen rest
    else
      match urlparseNetloc url with
      | some nl =>
        if endswith nl "stackoverflow.com" then emitLoop element (url :: seen) rest
        else (url, answerOf element) :: emitLoop element (url :: seen) rest
      | none => (url, answerOf element) :: emitLoop element (url :: seen) rest

/-- Mirrors `ExtractURLsFromAnswer.process`: the pairs yielded for one input
record. -/
def ExtractURLsFromAnswer.process (element : SourceRecord) : List (String × AnswerWithURL) :=
  emitLoop element [] (findLinks element.body.data)

/-- Outcome of one `requests.head` call: either a response (status code,
reason phrase, elapsed measurement) or a raised exception (its type name and
stringified message). -/
inductive ProbeOutcome where
  | response (status : Nat) (reason : String) (elapsed : Nat)
  | exc (name : String) (details : String)
deriving Repr, DecidableEq

/-- Status codes for which `requests.Response.raise_for_status` raises
`HTTPError`: the 4xx and 5xx ranges. -/
def raiseStatusRange (status : Nat) : Bool := 400 ≤ status && status < 600

/-- The `HTTPError` message built by `raise_for_status` (client error below
500, server error at 500 and above). -/
def httpErrorMsg (status : Nat) (reason url : String) : String :=
  if status < 500 then
    toString status ++ " Client Error: " ++ reason ++ " for url: " ++ url
  else
    toString status ++ " Server Error: " ++ reason ++ " for url: " ++ url

/-- Mirrors `CheckURLReturns200.process` on one URL group, the network being
abstracted by `probe`.  When the request returns, status and elapsed time are
recorded before `raise_for_status` runs, so they survive into the `HTTPError`
branch; when the request itself raises, neither is ever set and the except
branch records the exception's type name and message. -/
def CheckURLReturns200.process (probe : String → ProbeOutcome)
    (element : String × List AnswerWithURL) : AnswerURLCheckResult :=
  match probe element.1 with
  | ProbeOutcome.exc name details =>
    { url := element.1, answerURLs := element.2, status := none
      err_type := some name, err_details := some details, req_time_secs := none }
  | ProbeOutcome.response s reason elapsed =>
    if raiseStatusRange s then
      { url := element.1, answerURLs := element.2, status := some s
        err_type := some "HTTPError", err_details := some (httpErrorMsg s reason element.1)
        req_time_secs := some elapsed }
    else
      { url := element.1, answerURLs := element.2, status := some s
        err_type := none, err_details := none, req_time_secs := some elapsed }

/-- Mirrors `is_failure`. -/
def is_failure (element : AnswerURLCheckResult) : Bool := element.err_type.isSome

/-- Net effect of `CombinePerKey(combine_pcollection_to_list)`: one group per
distinct URL key holding every value emitted for that key.  Beam's group
order is engine-incidental; the model lists distinct keys via `List.dedup`. -/
def combinePerKey (pairs : List (String × AnswerWithURL)) : List (String × List AnswerWithURL) :=
  ((pairs.map Prod.fst).dedup).map
    (fun k => (k, (pairs.filter (fun p => p.1 = k)).map Prod.snd))

/-- The `responses` collection of `run`: extract from every record, group by
URL, then check each group once. -/
def pipelineResponses (probe : String → ProbeOutcome) (records : List SourceRecord) :
    List AnswerURLCheckResult :=
  (combinePerKey (records.flatMap ExtractURLsFromAnswer.process)).map
    (CheckURLReturns200.process probe)

/-- The URLs the checker issues HEAD requests against: one per group. -/
def pipelineProbes (records : List SourceRecord) : List String :=
  (combinePerKey (records.flatMap ExtractURLsFromAnswer.process)).map Prod.fst

/-- Ordering used by `results_as_dicts.sort(key=lambda x: x["answer_score_sum"],
reverse=True)`: earlier objects have the larger (or equal) score sum. -/
def scoreGE (a b : ResultDict) : Prop := b.answer_score_sum ≤ a.answer_score_sum

instance : DecidableRel scoreGE :=
  fun a b => inferInstanceAs (Decidable (b.answer_score_sum ≤ a.answer_score_sum))

instance : IsTotal ResultDict scoreGE :=
  ⟨fun a b => by unfold scoreGE; exact le_total _ _⟩

instance : IsTrans ResultDict scoreGE :=
  ⟨fun _ _ _ hab hbc => le_trans hbc hab⟩

/-- Mirrors `json_encode` up to JSON rendering: serialize each result with
`to_dict` and stable-sort by `answer_score_sum` descending (`reverse=True`);
Python's stable sort is modelled by the stable `List.insertionSort`.  The
value is the ordered sequence of objects of the emitted document. -/
def json_encode (check_results : List AnswerURLCheckResult) : List ResultDict :=
  List.insertionSort scoreGE (check_results.map AnswerURLCheckResult.to_dict)

/-- The all-results output view of `run`. -/
def allResponsesDoc (probe : String → ProbeOutcome) (records : List SourceRecord) :
    List ResultDict :=
  json_encode (pipelineResponses probe records)

/-- The failures output view of `run`: `beam.Filter(is_failure)` then encode. -/
def failuresDoc (probe : String → ProbeOutcome) (records : List SourceRecord) :
    List ResultDict :=
  json_encode ((pipelineResponses probe records).filter is_failure)

/-! Helper lemmas about the embedded stages. -/

/-- The per-URL skip condition of the extractor: `urlparse` succeeded and the
netloc ends with `stackoverflow.com`. -/
def skipURL (url : String) : Bool :=
  match urlparseNetloc url with
  | some nl => endswith nl "stackoverflow.com"
  | none => false

/-- The record references the URL: the extractor emits a pair for it. -/
def referencesURL (url : String) (r : SourceRecord) : Bool :=
  decide (url ∈ (ExtractURLsFromAnswer.process r).map Prod.fst)

/-! Concrete scenario used by the witnesses: two records sharing one good
URL, one dead URL, one self-referential URL, plus a record whose body holds
the URL outside an anchor, a record with a malformed href, and a record
linking a third-party host whose name merely ends in the excluded suffix. -/

/-- Record with score 10 referencing the shared URL and a stackoverflow.com
URL. -/
def exampleRecordA : SourceRecord :=
  { question_title := "A"
    body := "<a href=\"https://example.com/x\"> <a href=\"https://stackoverflow.com/q/9\">"
    score := 10, answer_id := 1 }

/-- Record with score 5 referencing the shared URL and a dead URL. -/
def exampleRecordB : SourceRecord :=
  { question_title := "B"
    body := "<a href=\"https://example.com/x\"> <a href=\"http://dead.example/\">"
    score := 5, answer_id := 2 }

/-- The two-record input of the example run. -/
def exampleRecords : List SourceRecord := [exampleRecordA, exampleRecordB]

/-- Network behaviour of the example run: the shared URL answers 200 OK, any
other request times out while connecting. -/
def exampleProbe : String → ProbeOutcome := fun u =>
  if u = "https://example.com/x" then ProbeOutcome.response 200 "OK" 1
  else ProbeOutcome.exc "ConnectTimeout" "timed out"

/-- The check result the example run produces for the shared URL. -/
def exampleOkResult : AnswerURLCheckResult :=
  { url := "https://example.com/x"
    answerURLs := [answerOf exampleRecordA, answerOf exampleRecordB]
    status := some 200, err_type := none, err_details := none, req_time_secs := some 1 }

/-- The check result the example run produces for the dead URL. -/
def exampleDeadResult : AnswerURLCheckResult :=
  { url := "http://dead.example/"
    answerURLs := [answerOf exampleRecordB]
    status := none, err_type := some "ConnectTimeout"
    err_details := some "timed out", req_time_secs := none }

/-- A network that answers every request with 301 Moved Permanently. -/
def redirectProbe : String → ProbeOutcome :=
  fun _ => ProbeOutcome.response 301 "Moved Permanently" 2

/-- Record whose body contains a URL as plain text, not inside an anchor. -/
def plainURLRecord : SourceRecord :=
  { question_title := "P", body := "see http://example.com/x", score := 2, answer_id := 6 }

/-- The malformed href of the spec's malformed-URL example. -/
def badURL : String := "http://bad url with spaces"

/-- Record whose body contains the malformed href inside an anchor. -/
def malformedRecord : SourceRecord :=
  { question_title := "Q", body := "see <a href=\"http://bad url with spaces\"> end"
    score := 7, answer_id := 3 }

/-- Record linking a host that merely ends in the excluded suffix. -/
def notSORecord : SourceRecord :=
  { question_title := "N", body := "<a href=\"http://notstackoverflow.com/x\">"
    score := 1, answer_id := 5 }

/-- A network on which every request raises `InvalidURL`. -/
def brokenProbe : String → ProbeOutcome :=
  fun _ => ProbeOutcome.exc "InvalidURL" "URL has an invalid label"

/-- Record linking a URL whose netloc makes `urlparse` raise (unmatched
bracket). -/
def ipv6Record : SourceRecord :=
  { question_title := "I", body := "<a href=\"http://[::1/z\">", score := 4, answer_id := 8 }

theorem dropPref_length : ∀ (p s r : List Char), dropPref p s = some r →
    s.length = p.length + r.length := by
  intro p
  induction p with
  | nil => intro s r h; simp [dropPref] at h; simp [h]
  | cons x xs ih =>
    intro s r h
    cases s with
    | nil => simp [dropPref] at h
    | cons c cs =>
      simp only [dropPref] at h
      by_cases hx : x = c
      · simp [hx] at h
        have := ih cs r h
        simp [List.length_cons, this]
        omega
      · simp [hx] at h

theorem dropPref_eq_append : ∀ (p s r : List Char), dropPref p s = some r → s = p ++ r := by
  intro p
  induction p with
  | nil => intro s r h; simp [dropPref] at h; simp [h]
  | cons x xs ih =>
    intro s r h
    cases s with
    | nil => simp [dropPref] at h
    | cons c cs =>
      simp only [dropPref] at h
      by_cases hx : x = c
      · simp [hx] at h
        have := ih cs r h
        simp [hx, this]
      · simp [hx] at h

theorem drop_length_takeWhile (p : Char → Bool) :
    ∀ l : List Char, l.drop (l.takeWhile p).length = l.dropWhile p := by
  intro l
  induction l with
  | nil => simp
  | cons c cs ih =>
    by_cases hc : p c
    · simp [List.takeWhile_cons, List.dropWhile_cons, hc, ih]
    · simp [List.takeWhile_cons, List.dropWhile_cons, hc]

/-- Every URL that the scan emits occurs verbatim in the scanned text. -/
theorem findLinksAux_sub : ∀ (fuel : Nat) (s : List Char) (u : String),
    u ∈ findLinksAux fuel s → ∃ pre post, s = pre ++ u.data ++ post := by
  intro fuel
  induction fuel with
  | zero => intro s u h; simp [findLinksAux] at h
  | succ fuel ih =>
    intro s u h
    cases s with
    | nil => simp [findLinksAux] at h
    | cons c cs =>
      rw [findLinksAux] at h
      rcases h1 : dropPref anchorChars (c :: cs) with _ | rest
      · simp only [h1] at h
        obtain ⟨pre, post, hp⟩ := ih cs u h
        exact ⟨c :: pre, post, by simp [hp]⟩
      · simp only [h1] at h
        rcases h2 : dropPref httpChars rest with _ | tail
        · simp only [h2] at h
          obtain ⟨pre, post, hp⟩ := ih cs u h
          exact ⟨c :: pre, post, by simp [hp]⟩
        · simp only [h2] at h
          by_cases hrun : tail.takeWhile (fun ch => ch ≠ '"') = []
          · rw [if_pos hrun] at h
            obtain ⟨pre, post, hp⟩ := ih cs u h
            exact ⟨c :: pre, post, by simp [hp]⟩
          · rw [if_neg hrun] at h
            have hs : (c :: cs : List Char) = anchorChars ++ httpChars ++ tail := by
              rw [dropPref_eq_append _ _ _ h1, dropPref_eq_append _ _ _ h2, List.append_assoc]
            have htail : tail = tail.takeWhile (fun ch => ch ≠ '"') ++
                tail.drop (tail.takeWhile (fun ch => ch ≠ '"')).length := by
              rw [drop_length_takeWhile, List.takeWhile_append_dropWhile]
            rcases List.mem_cons.mp h with hu | hu
            · refine ⟨anchorChars, tail.drop (tail.takeWhile (fun ch => ch ≠ '"')).length, ?_⟩
              rw [hs, hu]
              conv_lhs => rw [htail]
              simp [List.append_assoc]
            · obtain ⟨pre, post, hp⟩ := ih _ u hu
              refine ⟨anchorChars ++ httpChars ++ tail.takeWhile (fun ch => ch ≠ '"') ++ pre,
                post, ?_⟩
              rw [hs]
              conv_lhs => rw [htail]
              rw [hp]
              simp [List.append_assoc]

/-- A URL is a key of the extractor loop's output exactly when it is one of
the scanned URLs, not in the seen-set, and not skipped as self-referential. -/
theorem emitLoop_mem_keys (element : SourceRecord) :
    ∀ (urls seen : List String) (url : String),
    url ∈ (emitLoop element seen urls).map Prod.fst ↔
      url ∈ urls ∧ url ∉ seen ∧ skipURL url = false := by
  intro urls
  induction urls with
  | nil => intro seen url; simp [emitLoop]
  | cons u rest ih =>
    intro seen url
    rw [emitLoop]
    by_cases hu : u ∈ seen
    · rw [if_pos hu, ih]
      constructor
      · rintro ⟨h1, h2, h3⟩
        exact ⟨List.mem_cons_of_mem _ h1, h2, h3⟩
      · rintro ⟨h1, h2, h3⟩
        rcases List.mem_cons.mp h1 with rfl | h1
        · exact absurd hu h2
        · exact ⟨h1, h2, h3⟩
    · rw [if_neg hu]
      rcases hnl : urlparseNetloc u with _ | nl
      · have hskipu : skipURL u = false := by simp [skipURL, hnl]
        simp only [hnl, List.map_cons, List.mem_cons]
        rw [ih]
        constructor
        · rintro (rfl | ⟨h1, h2, h3⟩)
          · exact ⟨Or.inl rfl, hu, hskipu⟩
          · refine ⟨Or.inr h1, fun hs => h2 (List.mem_cons_of_mem _ hs), h3⟩
        · rintro ⟨h1, h2, h3⟩
          rcases h1 with rfl | h1
          · exact Or.inl rfl
          · by_cases huu : url = u
            · exact Or.inl huu
            · refine Or.inr ⟨h1, fun hs => ?_, h3⟩
              rcases List.mem_cons.mp hs with h | h
              · exact huu h
              · exact h2 h
      · by_cases hend : endswith nl "stackoverflow.com" = true
        · have hskipu : skipURL u = true := by simp [skipURL, hnl, hend]
          simp only [hnl, if_pos hend]
          rw [ih]
          constructor
          · rintro ⟨h1, h2, h3⟩
            exact ⟨List.mem_cons_of_mem _ h1,
              fun hs => h2 (List.mem_cons_of_mem _ hs), h3⟩
          · rintro ⟨h1, h2, h3⟩
            rcases List.mem_cons.mp h1 with rfl | h1
            · rw [hskipu] at h3; cases h3
            · refine ⟨h1, fun hs => ?_, h3⟩
              rcases List.mem_cons.mp hs with rfl | h
              · rw [hskipu] at h3; cases h3
              · exact h2 h
        · have hskipu : skipURL u = false := by
            simp only [skipURL, hnl]
            exact Bool.not_eq_true _ ▸ hend
          simp only [hnl, if_neg hend, List.map_cons, List.mem_cons]
          rw [ih]
          constructor
          · rintro (rfl | ⟨h1, h2, h3⟩)
            · exact ⟨Or.inl rfl, hu, hskipu⟩
            · refine ⟨Or.inr h1, fun hs => h2 (List.mem_cons_of_mem _ hs), h3⟩
          · rintro ⟨h1, h2, h3⟩
            rcases h1 with rfl | h1
            · exact Or.inl rfl
            · by_cases huu : url = u
              · exact Or.inl huu
              · refine Or.inr ⟨h1, fun hs => ?_, h3⟩
                rcases List.mem_cons.mp hs with h | h
                · exact huu h
                · exact h2 h

/-- Every pair the extractor loop emits carries the record's provenance. -/
theorem emitLoop_snd (element : SourceRecord) :
    ∀ (urls seen : List String) (p : String × AnswerWithURL),
    p ∈ emitLoop element seen urls → p.2 = answerOf element := by
  intro urls
  induction urls with
  | nil => intro seen p h; simp [emitLoop] at h
  | cons u rest ih =>
    intro seen p h
    rw [emitLoop] at h
    by_cases hu : u ∈ seen
    · rw [if_pos hu] at h; exact ih _ _ h
    · rw [if_neg hu] at h
      rcases hnl : urlparseNetloc u with _ | nl
      · simp only [hnl] at h
        rcases List.mem_cons.mp h with rfl | h
        · rfl
        · exact ih _ _ h
      · simp only [hnl] at h
        by_cases hend : endswith nl "stackoverflow.com" = true
        · rw [if_pos hend] at h; exact ih _ _ h
        · rw [if_neg hend] at h
          rcases List.mem_cons.mp h with rfl | h
          · rfl
          · exact ih _ _ h

/-- The extractor loop never emits the same URL twice for one record. -/
theorem emitLoop_keys_nodup (element : SourceRecord) :
    ∀ (urls seen : List String), ((emitLoop element seen urls).map Prod.fst).Nodup := by
  intro urls
  induction urls with
  | nil => intro seen; simp [emitLoop]
  | cons u rest ih =>
    intro seen
    rw [emitLoop]
    by_cases hu : u ∈ seen
    · rw [if_pos hu]; exact ih _
    · rw [if_neg hu]
      rcases hnl : urlparseNetloc u with _ | nl
      · simp only [hnl, List.map_cons]
        refine List.nodup_cons.mpr ⟨?_, ih _⟩
        intro hmem
        exact ((emitLoop_mem_keys element rest (u :: seen) u).mp hmem).2.1
          (List.mem_cons_self u seen)
      · by_cases hend : endswith nl "stackoverflow.com" = true
        · simp only [hnl, if_pos hend]
          exact ih _
        · simp only [hnl, if_neg hend, List.map_cons]
          refine List.nodup_cons.mpr ⟨?_, ih _⟩
          intro hmem
          exact ((emitLoop_mem_keys element rest (u :: seen) u).mp hmem).2.1
            (List.mem_cons_self u seen)

/-- The URLs a record's extraction emits: the scanned URLs that are not
skipped as self-referential (the seen-set only collapses duplicates). -/
theorem process_mem_keys (element : SourceRecord) (url : String) :
    url ∈ (ExtractURLsFromAnswer.process element).map Prod.fst ↔
      url ∈ findLinks element.body.data ∧ skipURL url = false := by
  rw [ExtractURLsFromAnswer.process, emitLoop_mem_keys]
  simp

/-- Each emitted pair's provenance value is `answerOf element`. -/
theorem process_snd (element : SourceRecord) (p : String × AnswerWithURL)
    (h : p ∈ ExtractURLsFromAnswer.process element) : p.2 = answerOf element :=
  emitLoop_snd element _ _ _ h

/-- Per-record dedup: a record's emitted URLs are pairwise distinct. -/
theorem process_keys_nodup (element : SourceRecord) :
    ((ExtractURLsFromAnswer.process element).map Prod.fst).Nodup :=
  emitLoop_keys_nodup element _ _

/-- Equation for the checker when the request raises. -/
theorem check_exc (probe : String → ProbeOutcome) (e : String × List AnswerWithURL)
    (name details : String) (h : probe e.1 = ProbeOutcome.exc name details) :
    CheckURLReturns200.process probe e =
      { url := e.1, answerURLs := e.2, status := none
        err_type := some name, err_details := some details, req_time_secs := none } := by
  rw [CheckURLReturns200.process, h]

/-- Equation for the checker when the request returns a response. -/
theorem check_response (probe : String → ProbeOutcome) (e : String × List AnswerWithURL)
    (s : Nat) (reason : String) (elapsed : Nat)
    (h : probe e.1 = ProbeOutcome.response s reason elapsed) :
    CheckURLReturns200.process probe e =
      if raiseStatusRange s then
        { url := e.1, answerURLs := e.2, status := some s
          err_type := some "HTTPError", err_details := some (httpErrorMsg s reason e.1)
          req_time_secs := some elapsed }
      else
        { url := e.1, answerURLs := e.2, status := some s
          err_type := none, err_details := none, req_time_secs := some elapsed } := by
  rw [CheckURLReturns200.process, h]

/-- The checker result always carries the group's URL. -/
theorem check_url (probe : String → ProbeOutcome) (e : String × List AnswerWithURL) :
    (CheckURLReturns200.process probe e).url = e.1 := by
  cases hpe : probe e.1 with
  | response s reason elapsed =>
    rw [check_response probe e s reason elapsed hpe]
    by_cases hs : raiseStatusRange s = true <;> simp [hs]
  | exc name details => rw [check_exc probe e name details hpe]

/-- The checker result always carries the group's reference list unchanged. -/
theorem check_answerURLs (probe : String → ProbeOutcome) (e : String × List AnswerWithURL) :
    (CheckURLReturns200.process probe e).answerURLs = e.2 := by
  cases hpe : probe e.1 with
  | response s reason elapsed =>
    rw [check_response probe e s reason elapsed hpe]
    by_cases hs : raiseStatusRange s = true <;> simp [hs]
  | exc name details => rw [check_exc probe e name details hpe]

/-- `err_type` is set exactly when the request raised or the recorded status
is in the `raise_for_status` range [400, 600). -/
theorem check_err_type_iff (probe : String → ProbeOutcome) (e : String × List AnswerWithURL) :
    (CheckURLReturns200.process probe e).err_type.isSome = true ↔
      ((CheckURLReturns200.process probe e).status = none ∨
        ∃ s, (CheckURLReturns200.process probe e).status = some s ∧ 400 ≤ s ∧ s < 600) := by
  cases hpe : probe e.1 with
  | exc name details => rw [check_exc probe e name details hpe]; simp
  | response s reason elapsed =>
    rw [check_response probe e s reason elapsed hpe]
    by_cases hs : raiseStatusRange s = true
    · rw [if_pos hs]
      simp only [Option.isSome_some, true_iff]
      refine Or.inr ⟨s, rfl, ?_⟩
      rw [raiseStatusRange, Bool.and_eq_true, decide_eq_true_iff, decide_eq_true_iff] at hs
      exact hs
    · rw [if_neg hs]
      simp only [Option.isSome_none, Bool.false_eq_true, false_iff]
      rintro (h | ⟨s', hs', h1, h2⟩)
      · exact Option.some_ne_none _ h
      · rw [Option.some_inj] at hs'
        subst hs'
        rw [raiseStatusRange, Bool.and_eq_true, decide_eq_true_iff, decide_eq_true_iff] at hs
        exact hs ⟨h1, h2⟩

/-- The group keys of `combinePerKey` are exactly the distinct pair keys. -/
theorem combinePerKey_keys (pairs : List (String × AnswerWithURL)) :
    (combinePerKey pairs).map Prod.fst = (pairs.map Prod.fst).dedup := by
  rw [combinePerKey, List.map_map]
  simp [Function.comp_def]

/-- Every group of `combinePerKey` is its key together with all values filed
under that key. -/
theorem mem_combinePerKey (pairs : List (String × AnswerWithURL))
    (g : String × List AnswerWithURL) (h : g ∈ combinePerKey pairs) :
    g.1 ∈ pairs.map Prod.fst ∧
      g.2 = (pairs.filter (fun p => p.1 = g.1)).map Prod.snd := by
  rw [combinePerKey] at h
  obtain ⟨k, hk, rfl⟩ := List.mem_map.mp h
  exact ⟨List.mem_dedup.mp hk, rfl⟩

/-- In a pair list with constant provenance and pairwise-distinct keys, the
pairs filed under `url` are `[(url, a)]` when the key occurs, else none. -/
theorem filter_key_of_nodup (a : AnswerWithURL) (url : String) :
    ∀ l : List (String × AnswerWithURL),
    (∀ p ∈ l, p.2 = a) → (l.map Prod.fst).Nodup →
    l.filter (fun p => p.1 = url) =
      if url ∈ l.map Prod.fst then [(url, a)] else [] := by
  intro l
  induction l with
  | nil => intro _ _; simp
  | cons p l' ih =>
    intro hsnd hnd
    have hpa : p.2 = a := hsnd p (List.mem_cons_self p l')
    have hnd' := (List.nodup_cons.mp hnd).2
    have hnm := (List.nodup_cons.mp hnd).1
    by_cases hp : p.1 = url
    · have hfilter : l'.filter (fun q => q.1 = url) = [] := by
        rw [ih (fun q hq => hsnd q (List.mem_cons_of_mem _ hq)) hnd']
        rw [if_neg]
        rw [← hp]
        exact hnm
      rw [List.filter_cons_of_pos (by simp [hp]), hfilter]
      have hpair : p = (url, a) := by
        rcases p with ⟨p1, p2⟩
        simp only [Prod.mk.injEq]
        exact ⟨hp, hpa⟩
      rw [hpair, if_pos]
      simp [← hp]
    · rw [List.filter_cons_of_neg (by simp [hp])]
      rw [ih (fun q hq => hsnd q (List.mem_cons_of_mem _ hq)) hnd']
      by_cases hm : url ∈ l'.map Prod.fst
      · rw [if_pos hm, if_pos (show url ∈ (p :: l').map Prod.fst by
          simp only [List.map_cons]; exact List.mem_cons_of_mem _ hm)]
      · rw [if_neg hm, if_neg ?_]
        intro hc
        simp only [List.map_cons, List.mem_cons] at hc
        rcases hc with hc | hc
        · exact hp hc.symm
        · exact hm hc

/-- Filtering the whole extraction output down to one URL keeps exactly one
pair per referencing record, in record order. -/
theorem flatMap_process_filter (url : String) :
    ∀ records : List SourceRecord,
    (records.flatMap ExtractURLsFromAnswer.process).filter (fun p => p.1 = url) =
      (records.filter (referencesURL url)).map (fun r => (url, answerOf r)) := by
  intro records
  induction records with
  | nil => simp
  | cons r rs ih =>
    rw [List.flatMap_cons, List.filter_append, ih]
    have hchar := filter_key_of_nodup (answerOf r) url (ExtractURLsFromAnswer.process r)
      (fun p hp => process_snd r p hp) (process_keys_nodup r)
    by_cases hm : url ∈ (ExtractURLsFromAnswer.process r).map Prod.fst
    · rw [hchar, if_pos hm, List.filter_cons_of_pos (by simp [referencesURL, hm])]
      simp
    · rw [hchar, if_neg hm, List.filter_cons_of_neg (by simp [referencesURL, hm])]
      simp

/-- A URL occurs among the extracted pair keys exactly when some input record
references it. -/
theorem mem_pairs_keys (records : List SourceRecord) (url : String) :
    url ∈ (records.flatMap ExtractURLsFromAnswer.process).map Prod.fst ↔
      1 ≤ (records.filter (referencesURL url)).length := by
  constructor
  · intro h
    obtain ⟨p, hp, hpu⟩ := List.mem_map.mp h
    obtain ⟨r, hr, hpr⟩ := List.mem_flatMap.mp hp
    have hret : referencesURL url r = true := by
      rw [referencesURL, decide_eq_true_iff]
      exact List.mem_map.mpr ⟨p, hpr, hpu⟩
    have hmem : r ∈ records.filter (referencesURL url) := List.mem_filter.mpr ⟨hr, hret⟩
    exact List.length_pos.mpr (List.ne_nil_of_mem hmem)
  · intro h
    have hne : records.filter (referencesURL url) ≠ [] := by
      intro hnil; rw [hnil] at h; simp at h
    obtain ⟨r, hr⟩ := List.exists_mem_of_ne_nil _ hne
    have h2 := List.mem_filter.mp hr
    have h3 := h2.2
    rw [referencesURL, decide_eq_true_iff] at h3
    obtain ⟨p, hp, hpu⟩ := List.mem_map.mp h3
    exact List.mem_map.mpr ⟨p, List.mem_flatMap.mpr ⟨r, h2.1, hp⟩, hpu⟩

/-- When `skipURL` is false, any successfully parsed netloc does not end in
the excluded suffix. -/
theorem skipURL_eq_false (url : String) (h : skipURL url = false) (nl : String)
    (hnl : urlparseNetloc url = some nl) : endswith nl "stackoverflow.com" = false := by
  rw [skipURL, hnl] at h
  exact h

/-- Every pipeline response's URL was emitted by the extractor, hence is not
skipped. -/
theorem responses_skip (probe : String → ProbeOutcome) (records : List SourceRecord) :
    ∀ r ∈ pipelineResponses probe records, skipURL r.url = false := by
  intro r hr
  rw [pipelineResponses] at hr
  obtain ⟨g, hg, rfl⟩ := List.mem_map.mp hr
  rw [check_url]
  have h1 := (mem_combinePerKey _ g hg).1
  obtain ⟨p, hp, hpu⟩ := List.mem_map.mp h1
  obtain ⟨rec, hrec, hprec⟩ := List.mem_flatMap.mp hp
  have h2 := (process_mem_keys rec p.1).mp (List.mem_map.mpr ⟨p, hprec, rfl⟩)
  rw [← hpu]
  exact h2.2

/-- Sorting does not change the objects of a document. -/
theorem mem_json_encode (l : List AnswerURLCheckResult) (d : ResultDict) :
    d ∈ json_encode l ↔ d ∈ l.map AnswerURLCheckResult.to_dict :=
  (List.perm_insertionSort scoreGE _).mem_iff

/-- The single response for a URL carries one reference per referencing
record. -/
theorem responses_answerURLs (probe : String → ProbeOutcome) (records : List SourceRecord)
    (url : String) :
    ∀ r ∈ pipelineResponses probe records, r.url = url →
      r.answerURLs = (records.filter (referencesURL url)).map answerOf := by
  intro r hr hu
  rw [pipelineResponses] at hr
  obtain ⟨g, hg, rfl⟩ := List.mem_map.mp hr
  rw [check_url] at hu
  rw [check_answerURLs]
  have h2 := (mem_combinePerKey _ g hg).2
  rw [h2, hu, flatMap_process_filter, List.map_map]
  simp [Function.comp_def]

/-- A referenced URL owns exactly one pipeline response. -/
theorem responses_countP (probe : String → ProbeOutcome) (records : List SourceRecord)
    (url : String) (h : 1 ≤ (records.filter (referencesURL url)).length) :
    (pipelineResponses probe records).countP (fun r => r.url = url) = 1 := by
  rw [pipelineResponses, List.countP_map]
  have hcomp : ((fun r => decide (r.url = url)) ∘ CheckURLReturns200.process probe) =
      fun g => decide (g.1 = url) := by
    funext g
    simp [check_url]
  rw [hcomp]
  rw [show (fun g : String × List AnswerWithURL => decide (g.1 = url)) =
      ((fun k => decide (k = url)) ∘ Prod.fst) from rfl, ← List.countP_map]
  rw [combinePerKey_keys]
  have hcnt : ∀ l : List String, l.countP (fun k => decide (k = url)) = l.count url := by
    intro l
    rw [List.count]
    apply List.countP_congr
    intro a _
    by_cases ha : a = url <;> simp [ha]
  rw [hcnt, List.count_dedup, if_pos ((mem_pairs_keys records url).mpr h)]

/-- A referenced URL is probed exactly once. -/
theorem probes_count (records : List SourceRecord) (url : String)
    (h : 1 ≤ (records.filter (referencesURL url)).length) :
    (pipelineProbes records).count url = 1 := by
  rw [pipelineProbes, combinePerKey_keys, List.count_dedup,
    if_pos ((mem_pairs_keys records url).mpr h)]

/-! Claim theorems. -/

/-- C1 counterexample: the checker probes a URL whose server answers
`301 Moved Permanently` (`requests.head` does not follow redirects).  The
resulting CheckResult records the non-2xx status 301 yet carries no
`err_type`, because `raise_for_status` only raises for 4xx/5xx, refuting
the claim that every result whose status is outside 2xx carries an
error kind. -/
theorem C1_counterexample :
    (CheckURLReturns200.process redirectProbe ("http://moved.example/", [])).status = some 301 ∧
    ¬(200 ≤ 301 ∧ 301 < 300) ∧
    (CheckURLReturns200.process redirectProbe ("http://moved.example/", [])).err_type = none := by
  refine ⟨by decide, by omega, by decide⟩

/-- C1 (amended): for every CheckResult produced by the Checker, `err_type`
is present if and only if the result represents a failure in the
`raise_for_status` sense: the status is missing, or the recorded status lies
in the 4xx/5xx range [400, 600).  A result with a status outside that range
(2xx, but also 1xx and 3xx) and no `err_type` is a success. -/
theorem C1_err_type_iff_raise_range (probe : String → ProbeOutcome)
    (e : String × List AnswerWithURL) :
    (CheckURLReturns200.process probe e).err_type.isSome = true ↔
      ((CheckURLReturns200.process probe e).status = none ∨
        ∃ s, (CheckURLReturns200.process probe e).status = some s ∧ 400 ≤ s ∧ s < 600) :=
  check_err_type_iff probe e

/-- C2: a URL referenced by K ≥ 1 input records owns exactly one CheckResult;
that result carries K references whose serialized `answer_score_sum` is the
sum of the K records' scores, and the checker issues exactly one probe for
the URL. -/
theorem C2_one_result_one_probe (probe : String → ProbeOutcome)
    (records : List SourceRecord) (url : String)
    (h : 1 ≤ (records.filter (referencesURL url)).length) :
    (pipelineResponses probe records).countP (fun r => r.url = url) = 1 ∧
    (∀ r ∈ pipelineResponses probe records, r.url = url →
      r.answerURLs.length = (records.filter (referencesURL url)).length ∧
      r.to_dict.answer_score_sum =
        ((records.filter (referencesURL url)).map (fun rec => rec.score)).sum) ∧
    (pipelineProbes records).count url = 1 := by
  refine ⟨responses_countP probe records url h, ?_, probes_count records url h⟩
  intro r hr hu
  have hans := responses_answerURLs probe records url r hr hu
  constructor
  · rw [hans, List.length_map]
  · rw [AnswerURLCheckResult.to_dict, hans, List.map_map]
    simp [Function.comp_def, answerOf]

/-- Witness for C2 on the example run: the shared URL is referenced by both
records, owns one response holding both references with score sum 15, and is
probed once. -/
theorem C2_one_result_one_probe_witness :
    (pipelineResponses exampleProbe exampleRecords).countP
        (fun r => r.url = "https://example.com/x") = 1 ∧
    (exampleOkResult.answerURLs.length =
        (exampleRecords.filter (referencesURL "https://example.com/x")).length ∧
      exampleOkResult.to_dict.answer_score_sum =
        ((exampleRecords.filter (referencesURL "https://example.com/x")).map
          (fun rec => rec.score)).sum) ∧
    (pipelineProbes exampleRecords).count "https://example.com/x" = 1 :=
  ⟨(C2_one_result_one_probe exampleProbe exampleRecords "https://example.com/x" (by decide)).1,
   (C2_one_result_one_probe exampleProbe exampleRecords "https://example.com/x" (by decide)).2.1
     exampleOkResult (by decide) (by decide),
   (C2_one_result_one_probe exampleProbe exampleRecords "https://example.com/x" (by decide)).2.2⟩

/-- C3 counterexample: a record whose body contains a URL as plain text (no
`<a href="` anchor) yields no reference at all, refuting the claim that a
reference is emitted exactly when the body contains the URL at least once. -/
theorem C3_counterexample :
    (∃ pre post : List Char,
      plainURLRecord.body.data = pre ++ ("http://example.com/x").data ++ post) ∧
    ExtractURLsFromAnswer.process plainURLRecord = [] := by
  exact ⟨⟨("see ").data, [], by decide⟩, by decide⟩

/-- C3 (amended): every reference the Extractor emits for a record pairs it
with a URL occurring verbatim in that record's body, and the Extractor never
emits two references from the same record for the same URL; containment of
the URL in the body is necessary but not sufficient (the URL must be captured
by the anchor scan and survive the self-referential-domain skip). -/
theorem C3_refs_occur_and_dedup (element : SourceRecord) :
    (∀ p ∈ ExtractURLsFromAnswer.process element,
      ∃ pre post, element.body.data = pre ++ p.1.data ++ post) ∧
    ((ExtractURLsFromAnswer.process element).map Prod.fst).Nodup := by
  constructor
  · intro p hp
    have hkey : p.1 ∈ (ExtractURLsFromAnswer.process element).map Prod.fst :=
      List.mem_map.mpr ⟨p, hp, rfl⟩
    have h2 := (process_mem_keys element p.1).mp hkey
    exact findLinksAux_sub element.body.data.length element.body.data p.1 h2.1
  · exact process_keys_nodup element

/-- Witness for C3 on the malformed-URL record: its single reference's URL
occurs in the body and the per-record URL list is duplicate-free. -/
theorem C3_refs_occur_and_dedup_witness :
    (∃ pre post, malformedRecord.body.data = pre ++ badURL.data ++ post) ∧
    ((ExtractURLsFromAnswer.process malformedRecord).map Prod.fst).Nodup :=
  ⟨(C3_refs_occur_and_dedup malformedRecord).1 (badURL, answerOf malformedRecord) (by decide),
   (C3_refs_occur_and_dedup malformedRecord).2⟩

/-- C7: when the probe raises before or during transport, the CheckResult
names the exception type in `err_type`, carries the stringified cause in
`err_details`, and leaves both `status` and the elapsed time unset. -/
theorem C7_transport_failure_fields (probe : String → ProbeOutcome)
    (e : String × List AnswerWithURL) (name details : String)
    (h : probe e.1 = ProbeOutcome.exc name details) :
    (CheckURLReturns200.process probe e).err_type = some name ∧
    (CheckURLReturns200.process probe e).err_details = some details ∧
    (CheckURLReturns200.process probe e).status = none ∧
    (CheckURLReturns200.process probe e).req_time_secs = none := by
  rw [check_exc probe e name details h]
  exact ⟨rfl, rfl, rfl, rfl⟩

/-- Witness for C7 at the example probe's timed-out URL. -/
theorem C7_transport_failure_fields_witness :
    (CheckURLReturns200.process exampleProbe
        ("http://dead.example/", [answerOf exampleRecordB])).err_type = some "ConnectTimeout" ∧
    (CheckURLReturns200.process exampleProbe
        ("http://dead.example/", [answerOf exampleRecordB])).err_details = some "timed out" ∧
    (CheckURLReturns200.process exampleProbe
        ("http://dead.example/", [answerOf exampleRecordB])).status = none ∧
    (CheckURLReturns200.process exampleProbe
        ("http://dead.example/", [answerOf exampleRecordB])).req_time_secs = none :=
  C7_transport_failure_fields exampleProbe ("http://dead.example/", [answerOf exampleRecordB])
    "ConnectTimeout" "timed out" (by decide)

/-- C4: the failures view is a permutation of the all-results view filtered
to objects with `err_type` set (so it is a subset of the all-results view,
omitting no failure and including no success), and every object of the
failures view occurs in the all-results view. -/
theorem C4_failures_view (probe : String → ProbeOutcome) (records : List SourceRecord) :
    (failuresDoc probe records).Perm
        ((allResponsesDoc probe records).filter (fun d => d.err_type.isSome)) ∧
    ∀ d ∈ failuresDoc probe records, d ∈ allResponsesDoc probe records := by
  have h1 : (failuresDoc probe records).Perm
      (((pipelineResponses probe records).filter is_failure).map AnswerURLCheckResult.to_dict) :=
    List.perm_insertionSort scoreGE _
  have hmapfil : ((pipelineResponses probe records).filter is_failure).map
        AnswerURLCheckResult.to_dict =
      ((pipelineResponses probe records).map AnswerURLCheckResult.to_dict).filter
        (fun d => d.err_type.isSome) := by
    rw [List.filter_map]
    rfl
  have h2 : ((pipelineResponses probe records).map AnswerURLCheckResult.to_dict).Perm
      (allResponsesDoc probe records) :=
    (List.perm_insertionSort scoreGE _).symm
  constructor
  · exact (h1.trans (hmapfil ▸ List.Perm.refl _)).trans
      (List.Perm.filter (fun d => d.err_type.isSome) h2)
  · intro d hd
    have hd2 := h1.mem_iff.mp hd
    obtain ⟨r, hr, rfl⟩ := List.mem_map.mp hd2
    have hr2 := List.mem_filter.mp hr
    exact h2.mem_iff.mp (List.mem_map.mpr ⟨r, hr2.1, rfl⟩)

/-- Witness for C4 on the example run: the two views stand in the stated
relation and the failures view's single object occurs in the all view. -/
theorem C4_failures_view_witness :
    (failuresDoc exampleProbe exampleRecords).Perm
        ((allResponsesDoc exampleProbe exampleRecords).filter (fun d => d.err_type.isSome)) ∧
    exampleDeadResult.to_dict ∈ allResponsesDoc exampleProbe exampleRecords :=
  ⟨(C4_failures_view exampleProbe exampleRecords).1,
   (C4_failures_view exampleProbe exampleRecords).2 exampleDeadResult.to_dict (by decide)⟩

/-- C5: both serialized views are sorted descending by `answer_score_sum`:
every adjacent pair of document objects has the earlier object's score sum
greater than or equal to the later object's (the documents are exactly the
Ranker's sort output by construction of `json_encode`). -/
theorem C5_views_sorted_desc (probe : String → ProbeOutcome) (records : List SourceRecord) :
    List.Chain' (fun a b => b.answer_score_sum ≤ a.answer_score_sum)
        (allResponsesDoc probe records) ∧
    List.Chain' (fun a b => b.answer_score_sum ≤ a.answer_score_sum)
        (failuresDoc probe records) :=
  ⟨(List.sorted_insertionSort scoreGE _).chain', (List.sorted_insertionSort scoreGE _).chain'⟩

/-- C6: a URL whose parsed host ends with the excluded suffix is never
emitted by the Extractor, so no CheckResult and no object of either output
view carries such a URL. -/
theorem C6_no_self_referential_urls (probe : String → ProbeOutcome)
    (records : List SourceRecord) :
    (∀ r ∈ pipelineResponses probe records, ∀ nl, urlparseNetloc r.url = some nl →
        endswith nl "stackoverflow.com" = false) ∧
    (∀ d ∈ allResponsesDoc probe records, ∀ nl, urlparseNetloc d.url = some nl →
        endswith nl "stackoverflow.com" = false) ∧
    (∀ d ∈ failuresDoc probe records, ∀ nl, urlparseNetloc d.url = some nl →
        endswith nl "stackoverflow.com" = false) := by
  refine ⟨?_, ?_, ?_⟩
  · intro r hr nl hnl
    exact skipURL_eq_false r.url (responses_skip probe records r hr) nl hnl
  · intro d hd nl hnl
    obtain ⟨r, hr, rfl⟩ := List.mem_map.mp ((mem_json_encode _ d).mp hd)
    exact skipURL_eq_false r.url (responses_skip probe records r hr) nl hnl
  · intro d hd nl hnl
    obtain ⟨r, hr, rfl⟩ := List.mem_map.mp ((mem_json_encode _ d).mp hd)
    exact skipURL_eq_false r.url
      (responses_skip probe records r (List.mem_filter.mp hr).1) nl hnl

/-- Witness for C6 at the example run's successful response. -/
theorem C6_no_self_referential_urls_witness :
    endswith "example.com" "stackoverflow.com" = false :=
  (C6_no_self_referential_urls exampleProbe exampleRecords).1 exampleOkResult
    (by decide) "example.com" (by decide)

/-- C8: a malformed href that still matches the extraction pattern (the
spec's `<a href="http://bad url with spaces">` example) is extracted as the
literal string, reaches the checker, and when the request on it raises, the
pipeline reports a CheckResult for the literal URL whose `err_type` names the
exception; more generally a URL whose parse raises at extraction time is
never dropped. -/
theorem C8_malformed_url_not_dropped (probe : String → ProbeOutcome) (name details : String)
    (h : probe badURL = ProbeOutcome.exc name details) :
    badURL ∈ (ExtractURLsFromAnswer.process malformedRecord).map Prod.fst ∧
    (∃ r ∈ pipelineResponses probe [malformedRecord],
      r.url = badURL ∧ is_failure r = true ∧ r.err_type = some name ∧
        r.err_details = some details) ∧
    (∀ (element : SourceRecord) (url : String), url ∈ findLinks element.body.data →
      urlparseNetloc url = none →
      url ∈ (ExtractURLsFromAnswer.process element).map Prod.fst) := by
  refine ⟨by decide, ?_, ?_⟩
  · refine ⟨CheckURLReturns200.process probe (badURL, [answerOf malformedRecord]), ?_, ?_⟩
    · have hg : combinePerKey ([malformedRecord].flatMap ExtractURLsFromAnswer.process) =
          [(badURL, [answerOf malformedRecord])] := by decide
      rw [pipelineResponses, hg]
      simp
    · rw [check_exc probe (badURL, [answerOf malformedRecord]) name details h]
      exact ⟨rfl, rfl, rfl, rfl⟩
  · intro element url hscan hparse
    refine (process_mem_keys element url).mpr ⟨hscan, ?_⟩
    rw [skipURL, hparse]

/-- Witness for C8 with a probe raising `InvalidURL` on the malformed URL and
a record whose href makes `urlparse` itself raise. -/
theorem C8_malformed_url_not_dropped_witness :
    badURL ∈ (ExtractURLsFromAnswer.process malformedRecord).map Prod.fst ∧
    (∃ r ∈ pipelineResponses brokenProbe [malformedRecord],
      r.url = badURL ∧ is_failure r = true ∧ r.err_type = some "InvalidURL" ∧
        r.err_details = some "URL has an invalid label") ∧
    ("http://[::1/z" ∈ (ExtractURLsFromAnswer.process ipv6Record).map Prod.fst) :=
  ⟨(C8_malformed_url_not_dropped brokenProbe "InvalidURL" "URL has an invalid label"
      (by decide)).1,
   (C8_malformed_url_not_dropped brokenProbe "InvalidURL" "URL has an invalid label"
      (by decide)).2.1,
   (C8_malformed_url_not_dropped brokenProbe "InvalidURL" "URL has an invalid label"
      (by decide)).2.2 ipv6Record ("http://[::1/z") (by decide) (by decide)⟩

/-- C9: the self-referential exclusion is a raw suffix test on the parsed
netloc: a record linking `http://notstackoverflow.com/x` — a host that is
neither `stackoverflow.com` nor one of its subdomains — yields no reference
at all, because its netloc ends with the character sequence
`stackoverflow.com`. -/
theorem C9_suffix_test_hits_unrelated_hosts :
    ExtractURLsFromAnswer.process notSORecord = [] ∧
    urlparseNetloc ("http://notstackoverflow.com/x") = some "notstackoverflow.com" ∧
    endswith "notstackoverflow.com" "stackoverflow.com" = true ∧
    "notstackoverflow.com" ≠ "stackoverflow.com" ∧
    endswith "notstackoverflow.com" ".stackoverflow.com" = false := by
  refine ⟨by decide, by decide, by decide, by decide, by decide⟩

/-- C10: the scan recognizes only the literal text `<a href="` followed by a
double-quoted value whose first four characters are `http`: a single-quoted
href and an anchor with an attribute before `href` yield nothing, a non-URL
scheme such as `httpx` is extracted, a non-`http` scheme is not, and the
capture extends up to but not including the next double quote. -/
theorem C10_literal_anchor_pattern :
    findLinks ("<a href='http://single.example/'>").data = [] ∧
    findLinks ("<a class=\"x\" href=\"http://attr.example/\">").data = [] ∧
    findLinks ("<a href=\"httpx://weird\">").data = ["httpx://weird"] ∧
    findLinks ("<a href=\"ftp://files.example/\">").data = [] ∧
    findLinks ("pre <a href=\"http://cut.example/a\">more \"text\"").data
      = ["http://cut.example/a"] := by
  refine ⟨by decide, by decide, by decide, by decide, by decide⟩
